import Mathlib

/-!
Verification development for the Transcribble repository: a push-to-talk
transcription app (Rust core + Tauri/React UI).  The Rust audio-pipeline
core (Frame Source, Transfer Channel, Encoder, Reconciler) ships only as
documentation in this repository snapshot, so those components are
modelled from the specification text; the TypeScript store and pages are
embedded from the source files directly.
-/

namespace Transcribble

/-! ## Audio pipeline data model -/

/-- An AudioFrame: an ordered sequence of signed 16-bit samples
(represented as `Int` with the i16 range handled explicitly). -/
abbrev AudioFrame := List Int

/-! ## Encoder

Modelled from the spec: the Encoder source is not under src/; §4.3 of the
spec and the repository docs ("Must convert i16 samples to LE bytes via
to_le_bytes() before AWS transmission") describe it.  Each i16 sample is
serialized as two bytes, low byte first (little-endian), and the byte
pairs are concatenated in sample order. -/

/-- Modelled from the spec: `i16::to_le_bytes` — the two's-complement
16-bit pattern of the sample, low byte first. -/
def toLeBytes (n : Int) : List Nat :=
  [((n % 65536).toNat) % 256, ((n % 65536).toNat) / 256]

/-- Modelled from the spec: the Encoder serializes every sample of a frame
and concatenates the byte pairs in sample order. -/
def encode (frame : AudioFrame) : List Nat :=
  (frame.map toLeBytes).flatten

/-- Reassemble a signed 16-bit value from its two little-endian bytes. -/
def decodeI16 (b0 b1 : Nat) : Int :=
  let u : Nat := b0 + 256 * b1
  if u ≥ 32768 then (u : Int) - 65536 else (u : Int)

theorem encode_append (xs ys : AudioFrame) :
    encode (xs ++ ys) = encode xs ++ encode ys := by
  simp [encode]

theorem encode_length (fr : AudioFrame) :
    (encode fr).length = 2 * fr.length := by
  induction fr with
  | nil => simp [encode]
  | cons x xs ih =>
      simp [encode, toLeBytes] at ih ⊢
      omega

theorem toLeBytes_roundtrip (n : Int) (h0 : -32768 ≤ n) (h1 : n < 32768) :
    decodeI16 (((n % 65536).toNat) % 256) (((n % 65536).toNat) / 256) = n := by
  simp only [decodeI16]
  omega

/-! ## Transfer Channel

Modelled from the spec: the channel source is not under src/; §4.2 of the
spec and the repository docs ("mpsc channels use 100-slot capacity for
back-pressure management", "Bridge: tokio mpsc channels with blocking_send
from audio thread", "Channel send failures: Silent ignore (receiver
dropped = intentional shutdown)") describe it.  A bounded FIFO queue of
AudioFrame; a push on a full channel does not complete (the producer
blocks) and the state is unchanged until a pop frees a slot; a push on a
closed channel observes closure. -/

/-- Capacity of the transfer channel, from the docs: 100 slots. -/
def channelCapacity : Nat := 100

/-- A single-producer/single-consumer bounded channel. -/
structure Channel (α : Type) where
  capacity : Nat
  queue : List α
  closed : Bool
deriving Repr, DecidableEq

/-- A fresh open channel of the given capacity. -/
def mkChannel (α : Type) (cap : Nat) : Channel α :=
  { capacity := cap, queue := [], closed := false }

/-- Outcome of a non-blocking push attempt.  `wouldBlock` is the point at
which the producer of a blocking channel parks until a pop occurs. -/
inductive PushResult (α : Type) where
  | accepted (ch : Channel α)
  | wouldBlock
  | closedChannel
deriving Repr, DecidableEq

/-- Modelled from the spec: one push attempt.  Closure is observed first;
otherwise the frame is enqueued at the back if a slot is free, and the
producer must wait (state unchanged) when the queue is full. -/
def tryPush {α : Type} (ch : Channel α) (x : α) : PushResult α :=
  if ch.closed then .closedChannel
  else if ch.queue.length < ch.capacity then
    .accepted { ch with queue := ch.queue ++ [x] }
  else .wouldBlock

/-- Pop the frame at the front of the queue, if any. -/
def pop {α : Type} (ch : Channel α) : Option (α × Channel α) :=
  match ch.queue with
  | [] => none
  | x :: rest => some (x, { ch with queue := rest })

/-- Push a whole list of frames with no intervening pop; stops at the
first push that does not complete.  Returns the final channel state and
the list of frames the channel accepted, in push order. -/
def pushAll {α : Type} (ch : Channel α) (xs : List α) : Channel α × List α :=
  match xs with
  | [] => (ch, [])
  | x :: rest =>
      match tryPush ch x with
      | .accepted ch' =>
          let r := pushAll ch' rest
          (r.1, x :: r.2)
      | _ => (ch, [])

/-- Drain the channel by repeated pops, yielding frames in delivery order. -/
def drain {α : Type} (ch : Channel α) : List α :=
  match h : ch.queue with
  | [] => []
  | x :: rest => x :: drain { ch with queue := rest }
termination_by ch.queue.length
decreasing_by rw [h]; simp

theorem drain_eq_of_queue {α : Type} (l : List α) :
    ∀ ch : Channel α, ch.queue = l → drain ch = l := by
  induction l with
  | nil => intro ch h; rw [drain, h]
  | cons x rest ih =>
      intro ch h
      rw [drain, h]
      have := ih { ch with queue := rest } (by simp)
      simp [this]

theorem drain_eq_queue {α : Type} (ch : Channel α) : drain ch = ch.queue :=
  drain_eq_of_queue ch.queue ch rfl

theorem pushAll_of_fits {α : Type} (xs : List α) :
    ∀ ch : Channel α, ch.closed = false →
      ch.queue.length + xs.length ≤ ch.capacity →
      pushAll ch xs = ({ ch with queue := ch.queue ++ xs }, xs) := by
  induction xs with
  | nil => intro ch _ _; simp [pushAll]
  | cons x rest ih =>
      intro ch hcl hlen
      have hfree : ch.queue.length < ch.capacity := by
        simp at hlen; omega
      have hstep : tryPush ch x = .accepted { ch with queue := ch.queue ++ [x] } := by
        simp [tryPush, hcl, hfree]
      have hrec := ih { ch with queue := ch.queue ++ [x] } (by simp [hcl])
        (by simp at hlen ⊢; omega)
      simp [pushAll, hstep, hrec]

/-! ## Capture-side send loop

Modelled from the spec: the audio thread bridges frames into the channel
with `blocking_send`; a send fails only when the receiver has been
dropped (intentional shutdown), and that failure is silently ignored —
the capture side unwinds with no error. -/

/-- Outcome of a blocking send: either the frame was delivered (possibly
after waiting for a slot — the wait itself is not modelled, only its
completion), or the channel was observed closed. -/
inductive SendResult (α : Type) where
  | sent (ch : Channel α)
  | closedChannel
deriving Repr, DecidableEq

/-- Modelled from the spec: `blocking_send` — fails exactly when the
channel is closed, otherwise delivers the frame to the back of the queue. -/
def blockingSend {α : Type} (ch : Channel α) (x : α) : SendResult α :=
  if ch.closed then .closedChannel
  else .sent { ch with queue := ch.queue ++ [x] }

/-- Modelled from the spec: the capture delivery loop.  A closed channel
stops the loop and is never surfaced as an error (the `Except` result is
`.ok` on that path — "Channel send failures: Silent ignore"). -/
def captureLoop (ch : Channel AudioFrame) :
    List AudioFrame → Channel AudioFrame × Except String Unit
  | [] => (ch, .ok ())
  | f :: rest =>
      match blockingSend ch f with
      | .closedChannel => (ch, .ok ())
      | .sent ch' => captureLoop ch' rest

/-! ## Claim theorems C1 - C3 -/

/-- C1: for the 100-slot Transfer Channel, pushing 101 frames with no pop
accepts exactly the first 100 in capture order, the 101st push does not
complete (the producer blocks, channel unchanged) until a pop occurs —
after which the retried push is accepted — and draining the channel
yields every accepted frame exactly once, in capture order: nothing
lost, duplicated, or reordered. -/
theorem transferChannel_backpressure (fs : List AudioFrame) (f : AudioFrame)
    (h : fs.length = channelCapacity) :
    (pushAll (mkChannel AudioFrame channelCapacity) fs).2 = fs ∧
    (pushAll (mkChannel AudioFrame channelCapacity) fs).1.queue = fs ∧
    tryPush (pushAll (mkChannel AudioFrame channelCapacity) fs).1 f = .wouldBlock ∧
    (∀ y ch', pop (pushAll (mkChannel AudioFrame channelCapacity) fs).1 = some (y, ch') →
      tryPush ch' f = .accepted { ch' with queue := ch'.queue ++ [f] }) ∧
    drain (pushAll (mkChannel AudioFrame channelCapacity) fs).1 = fs := by
  have hfit : (mkChannel AudioFrame channelCapacity).queue.length + fs.length ≤
      (mkChannel AudioFrame channelCapacity).capacity := by
    simp [mkChannel, h]
  have hp := pushAll_of_fits fs (mkChannel AudioFrame channelCapacity) rfl hfit
  rw [hp]
  refine ⟨rfl, by simp [mkChannel], ?_, ?_, ?_⟩
  · simp [tryPush, mkChannel, h]
  · intro y ch' hpop
    cases fs with
    | nil => simp [channelCapacity] at h
    | cons a rest =>
        simp [pop, mkChannel] at hpop
        obtain ⟨hy, hch⟩ := hpop
        subst hch
        simp [tryPush, mkChannel]
        simp [channelCapacity] at h ⊢
        omega
  · rw [drain_eq_queue]
    simp [mkChannel]

/-- Closed form of `transferChannel_backpressure` at a concrete run of
100 distinct frames followed by a 101st. -/
theorem transferChannel_backpressure_witness :
    ((List.range 100).map (fun i => ([Int.ofNat i] : AudioFrame))).length = channelCapacity ∧
    (pushAll (mkChannel AudioFrame channelCapacity)
        ((List.range 100).map (fun i => ([Int.ofNat i] : AudioFrame)))).2 =
      (List.range 100).map (fun i => ([Int.ofNat i] : AudioFrame)) ∧
    (pushAll (mkChannel AudioFrame channelCapacity)
        ((List.range 100).map (fun i => ([Int.ofNat i] : AudioFrame)))).1.queue =
      (List.range 100).map (fun i => ([Int.ofNat i] : AudioFrame)) ∧
    tryPush (pushAll (mkChannel AudioFrame channelCapacity)
        ((List.range 100).map (fun i => ([Int.ofNat i] : AudioFrame)))).1 [777] = .wouldBlock ∧
    (∀ y ch', pop (pushAll (mkChannel AudioFrame channelCapacity)
        ((List.range 100).map (fun i => ([Int.ofNat i] : AudioFrame)))).1 = some (y, ch') →
      tryPush ch' [777] = .accepted { ch' with queue := ch'.queue ++ [[777]] }) ∧
    drain (pushAll (mkChannel AudioFrame channelCapacity)
        ((List.range 100).map (fun i => ([Int.ofNat i] : AudioFrame)))).1 =
      (List.range 100).map (fun i => ([Int.ofNat i] : AudioFrame)) := by
  have hlen : ((List.range 100).map (fun i => ([Int.ofNat i] : AudioFrame))).length =
      channelCapacity := by simp [channelCapacity]
  have := transferChannel_backpressure
    ((List.range 100).map (fun i => ([Int.ofNat i] : AudioFrame))) [777] hlen
  exact ⟨hlen, this.1, this.2.1, this.2.2.1, this.2.2.2.1, this.2.2.2.2⟩

/-- C2: once the consumer side is gone (channel closed), every producer
push observes closure, and the capture loop unwinds returning `.ok` —
closure after an intentional stop is never treated or surfaced as an
error. -/
theorem closedChannel_push_is_not_error (ch : Channel AudioFrame)
    (fs : List AudioFrame) (hcl : ch.closed = true) :
    (∀ f, blockingSend ch f = .closedChannel) ∧
    captureLoop ch fs = (ch, .ok ()) := by
  constructor
  · intro f; simp [blockingSend, hcl]
  · cases fs with
    | nil => rfl
    | cons f rest => simp [captureLoop, blockingSend, hcl]

/-- Closed form of `closedChannel_push_is_not_error` on a concrete closed
channel and a nonempty frame list. -/
theorem closedChannel_push_is_not_error_witness :
    ({ capacity := 100, queue := [], closed := true } : Channel AudioFrame).closed = true ∧
    ((∀ f, blockingSend ({ capacity := 100, queue := [], closed := true } : Channel AudioFrame) f
        = .closedChannel) ∧
      captureLoop ({ capacity := 100, queue := [], closed := true } : Channel AudioFrame)
        [[1], [2]] = ({ capacity := 100, queue := [], closed := true }, .ok ())) :=
  ⟨rfl, closedChannel_push_is_not_error _ [[1], [2]] rfl⟩

/-- C3: the Encoder is a pure sample-wise map — it distributes over frame
concatenation, emits exactly two bytes per sample, serializes each i16
sample low byte first (little-endian, each byte below 256), and the two
bytes reconstruct the sample exactly; no resampling, filtering, or
mixing. -/
theorem encoder_le_bytes (fr : AudioFrame) (n : Int)
    (h0 : -32768 ≤ n) (h1 : n < 32768) :
    (∀ xs ys : AudioFrame, encode (xs ++ ys) = encode xs ++ encode ys) ∧
    (encode fr).length = 2 * fr.length ∧
    encode (fr ++ [n]) = encode fr ++ toLeBytes n ∧
    toLeBytes n = [((n % 65536).toNat) % 256, ((n % 65536).toNat) / 256] ∧
    ((n % 65536).toNat) % 256 < 256 ∧ ((n % 65536).toNat) / 256 < 256 ∧
    decodeI16 (((n % 65536).toNat) % 256) (((n % 65536).toNat) / 256) = n := by
  refine ⟨encode_append, encode_length fr, ?_, rfl, ?_, ?_, toLeBytes_roundtrip n h0 h1⟩
  · rw [encode_append]; simp [encode]
  · omega
  · omega

/-- Closed form of `encoder_le_bytes` at the frame `[1, -2]` and the
boundary sample `-32768`. -/
theorem encoder_le_bytes_witness :
    (-32768 ≤ (-32768 : Int) ∧ (-32768 : Int) < 32768) ∧
    ((∀ xs ys : AudioFrame, encode (xs ++ ys) = encode xs ++ encode ys) ∧
      (encode [1, -2]).length = 2 * ([1, -2] : AudioFrame).length ∧
      encode ([1, -2] ++ [-32768]) = encode [1, -2] ++ toLeBytes (-32768) ∧
      toLeBytes (-32768) =
        [(((-32768 : Int) % 65536).toNat) % 256, (((-32768 : Int) % 65536).toNat) / 256] ∧
      (((-32768 : Int) % 65536).toNat) % 256 < 256 ∧
      (((-32768 : Int) % 65536).toNat) / 256 < 256 ∧
      decodeI16 ((((-32768 : Int) % 65536).toNat) % 256)
        ((((-32768 : Int) % 65536).toNat) / 256) = -32768) :=
  ⟨⟨by decide, by decide⟩, encoder_le_bytes [1, -2] (-32768) (by decide) (by decide)⟩

/-! ## Reconciler

Modelled from the spec: the Reconciler source is not under src/; §4.5 of
the spec and the repository docs ("Partial results: overwrite current
line, Final results: new line + optional file append") describe it.  It
consumes TranscriptEvents in arrival order, keeps a committed transcript
plus at most one live line, rejects (logs) any event for an id that
already has a recorded Final, and on a session error discards the live
line while preserving the committed transcript. -/

/-- A transcript event, or the session-error notification delivered to
the Reconciler.  `Partial` and `Final` carry a segment id and UTF-8 text. -/
inductive TranscriptEvent where
  | Partial (id text : String)
  | Final (id text : String)
  | TransportError
deriving Repr, DecidableEq

/-- An operation the Reconciler issues to the output sink (or to the log,
for rejected protocol violations), synchronously while handling an event. -/
inductive SinkOp where
  | updateLive (text : String)
  | commitFinal (text : String)
  | reportError
  | logViolation (id : String)
deriving Repr, DecidableEq

/-- The accumulated OutputState: committed transcript in append order, at
most one live (uncommitted) line tagged with its segment id, and the ids
for which a Final has been recorded. -/
structure OutputState where
  committed : List String
  live : Option (String × String)
  finalized : List String
deriving Repr, DecidableEq

/-- OutputState before any event arrives. -/
def initialOutput : OutputState :=
  { committed := [], live := none, finalized := [] }

/-- Clear the live line when it belongs to the given segment id. -/
def clearIfOwned (live : Option (String × String)) (id : String) :
    Option (String × String) :=
  match live with
  | some (lid, t) => if lid = id then none else some (lid, t)
  | none => none

/-- Modelled from the spec: one Reconciler step.  A Partial for an
unfinalized id replaces the live line (even when the id differs from the
live line's id); a first Final for an id appends to the committed
transcript, clears the live line if it belonged to that id, records the
id, and notifies the sink; any event for an already-finalized id is
rejected and only logged; a transport error clears the live line, keeps
the committed transcript, and reports one error to the sink. -/
def reconcile (s : OutputState) (e : TranscriptEvent) :
    OutputState × List SinkOp :=
  match e with
  | .Partial id t =>
      if id ∈ s.finalized then (s, [.logViolation id])
      else ({ s with live := some (id, t) }, [.updateLive t])
  | .Final id t =>
      if id ∈ s.finalized then (s, [.logViolation id])
      else ({ committed := s.committed ++ [t],
              live := clearIfOwned s.live id,
              finalized := id :: s.finalized }, [.commitFinal t])
  | .TransportError => ({ s with live := none }, [.reportError])

/-- Run the Reconciler over a whole event sequence in arrival order. -/
def reconcileAll (s : OutputState) (evs : List TranscriptEvent) : OutputState :=
  evs.foldl (fun st e => (reconcile st e).1) s

/-- The texts of the Finals the Reconciler accepts (the first Final for
each id, relative to the ids already finalized), in arrival order. -/
def acceptedFinals (fin : List String) : List TranscriptEvent → List String
  | [] => []
  | .Partial _ _ :: rest => acceptedFinals fin rest
  | .Final id t :: rest =>
      if id ∈ fin then acceptedFinals fin rest
      else t :: acceptedFinals (id :: fin) rest
  | .TransportError :: rest => acceptedFinals fin rest

/-- The texts of all Final events of a sequence, in arrival order (what
the unamended claim compares the committed transcript to). -/
def finalsTexts (evs : List TranscriptEvent) : List String :=
  evs.filterMap (fun e =>
    match e with
    | .Final _ t => some t
    | _ => none)

theorem reconcileAll_cons (s : OutputState) (e : TranscriptEvent)
    (rest : List TranscriptEvent) :
    reconcileAll s (e :: rest) = reconcileAll (reconcile s e).1 rest := rfl

theorem reconcileAll_committed (evs : List TranscriptEvent) :
    ∀ s : OutputState,
      (reconcileAll s evs).committed = s.committed ++ acceptedFinals s.finalized evs := by
  induction evs with
  | nil => intro s; simp [reconcileAll, acceptedFinals]
  | cons e rest ih =>
      intro s
      rw [reconcileAll_cons]
      cases e with
      | Partial id t =>
          by_cases hid : id ∈ s.finalized
          · have h1 : (reconcile s (.Partial id t)).1 = s := by simp [reconcile, hid]
            rw [h1, ih, acceptedFinals]
          · have h1 : (reconcile s (.Partial id t)).1 = { s with live := some (id, t) } := by
              simp [reconcile, hid]
            rw [h1, ih]
            simp [acceptedFinals]
      | Final id t =>
          by_cases hid : id ∈ s.finalized
          · have h1 : (reconcile s (.Final id t)).1 = s := by simp [reconcile, hid]
            rw [h1, ih]
            simp [acceptedFinals, hid]
          · have h1 : (reconcile s (.Final id t)).1 =
                { committed := s.committed ++ [t],
                  live := clearIfOwned s.live id,
                  finalized := id :: s.finalized } := by simp [reconcile, hid]
            rw [h1, ih]
            simp [acceptedFinals, hid]
      | TransportError =>
          have h1 : (reconcile s .TransportError).1 = { s with live := none } := by
            simp [reconcile]
          rw [h1, ih]
          simp [acceptedFinals]

/-! ## Claim theorems C4 - C7 -/

/-- C4 counterexample: on the sequence `[Final "a" "x", Final "a" "y"]`
the committed transcript is `["x"]`, not the arrival-ordered texts of
all Final events `["x", "y"]` — the duplicate Final for the already
finalized id `"a"` appends nothing. -/
theorem committed_ne_all_finals :
    (reconcileAll initialOutput
        [.Final "a" "x", .Final "a" "y"]).committed = ["x"] ∧
    finalsTexts [.Final "a" "x", .Final "a" "y"] = ["x", "y"] ∧
    (reconcileAll initialOutput
        [.Final "a" "x", .Final "a" "y"]).committed ≠
      finalsTexts [.Final "a" "x", .Final "a" "y"] := by
  refine ⟨by decide, by decide, by decide⟩

/-- C4 (amended): the committed transcript equals, in arrival order, the
texts of the accepted Finals — the first Final for each segment id; each
such Final appends exactly one entry and notifies the sink synchronously
with exactly the commit operation, while a Final for an already
finalized id appends nothing. -/
theorem committed_order_eq_accepted_final_order
    (evs : List TranscriptEvent) (s : OutputState) (id t : String)
    (hid : id ∉ s.finalized) :
    (reconcileAll initialOutput evs).committed = acceptedFinals [] evs ∧
    (reconcile s (.Final id t)).1.committed = s.committed ++ [t] ∧
    (reconcile s (.Final id t)).2 = [.commitFinal t] := by
  refine ⟨?_, ?_, ?_⟩
  · simpa [initialOutput] using reconcileAll_committed evs initialOutput
  · simp [reconcile, hid]
  · simp [reconcile, hid]

/-- Closed form of `committed_order_eq_accepted_final_order` on the
spec's two-segment scenario and a fresh Final for id `"b"`. -/
theorem committed_order_eq_accepted_final_order_witness :
    ("b" ∉ initialOutput.finalized) ∧
    ((reconcileAll initialOutput
        [.Partial "a" "hel", .Partial "a" "hello", .Final "a" "hello",
          .Final "b" "world"]).committed =
      acceptedFinals []
        [.Partial "a" "hel", .Partial "a" "hello", .Final "a" "hello",
          .Final "b" "world"] ∧
    (reconcile initialOutput (.Final "b" "world")).1.committed =
      initialOutput.committed ++ ["world"] ∧
    (reconcile initialOutput (.Final "b" "world")).2 = [.commitFinal "world"]) :=
  ⟨by decide,
    committed_order_eq_accepted_final_order
      [.Partial "a" "hel", .Partial "a" "hello", .Final "a" "hello",
        .Final "b" "world"]
      initialOutput "b" "world" (by decide)⟩

/-- The live-line candidate an event contributes, relative to a set of
finalized ids: a Partial for an unfinalized id, and nothing otherwise. -/
def livePartialOf (fin : List String) (e : TranscriptEvent) :
    Option (String × String) :=
  match e with
  | .Partial id t => if id ∈ fin then none else some (id, t)
  | _ => none

/-- The most recently received Partial whose segment id is not in the
given finalized set: scan the event sequence from the most recent end. -/
def mostRecentUnfinalizedPartial (evs : List TranscriptEvent)
    (fin : List String) : Option (String × String) :=
  evs.reverse.findSome? (livePartialOf fin)

theorem findSome?_livePartial_extend (r : List TranscriptEvent)
    (fin : List String) (idNew i t : String) (hne : i ≠ idNew)
    (h : r.findSome? (livePartialOf fin) = some (i, t)) :
    r.findSome? (livePartialOf (idNew :: fin)) = some (i, t) := by
  induction r with
  | nil => simp at h
  | cons e rest ih =>
      cases e with
      | Partial id tt =>
          by_cases hid : id ∈ fin
          · have hid' : id ∈ idNew :: fin := List.mem_cons.mpr (Or.inr hid)
            simp [List.findSome?_cons, livePartialOf, hid] at h
            simp [List.findSome?_cons, livePartialOf, hid']
            exact ih h
          · simp [List.findSome?_cons, livePartialOf, hid] at h
            obtain ⟨rfl, rfl⟩ := h
            have hid' : id ∉ idNew :: fin := by
              simp [List.mem_cons]
              exact ⟨fun hc => hne hc, hid⟩
            simp [List.findSome?_cons, livePartialOf, hid']
      | Final id tt =>
          simp [List.findSome?_cons, livePartialOf] at h ⊢
          exact ih h
      | TransportError =>
          simp [List.findSome?_cons, livePartialOf] at h ⊢
          exact ih h

theorem live_eq_most_recent (evs : List TranscriptEvent) :
    ∀ i t : String, (reconcileAll initialOutput evs).live = some (i, t) →
      mostRecentUnfinalizedPartial evs
        (reconcileAll initialOutput evs).finalized = some (i, t) := by
  induction evs using List.reverseRecOn with
  | nil => intro i t h; simp [reconcileAll, initialOutput] at h
  | append_singleton l e ih =>
      intro i t h
      have hall : reconcileAll initialOutput (l ++ [e]) =
          (reconcile (reconcileAll initialOutput l) e).1 := by
        simp [reconcileAll, List.foldl_append]
      rw [hall] at h ⊢
      cases e with
      | Partial id tt =>
          by_cases hid : id ∈ (reconcileAll initialOutput l).finalized
          · have h1 : (reconcile (reconcileAll initialOutput l) (.Partial id tt)).1 =
                reconcileAll initialOutput l := by simp [reconcile, hid]
            rw [h1] at h ⊢
            have := ih i t h
            simp [mostRecentUnfinalizedPartial, List.findSome?_cons, livePartialOf, hid] at this ⊢
            exact this
          · have h1 : (reconcile (reconcileAll initialOutput l) (.Partial id tt)).1 =
                { reconcileAll initialOutput l with live := some (id, tt) } := by
              simp [reconcile, hid]
            rw [h1] at h ⊢
            simp at h
            obtain ⟨rfl, rfl⟩ := h
            simp [mostRecentUnfinalizedPartial, List.findSome?_cons, livePartialOf, hid]
      | Final id tt =>
          by_cases hid : id ∈ (reconcileAll initialOutput l).finalized
          · have h1 : (reconcile (reconcileAll initialOutput l) (.Final id tt)).1 =
                reconcileAll initialOutput l := by simp [reconcile, hid]
            rw [h1] at h ⊢
            have := ih i t h
            simp [mostRecentUnfinalizedPartial, List.findSome?_cons, livePartialOf] at this ⊢
            exact this
          · have h1 : (reconcile (reconcileAll initialOutput l) (.Final id tt)).1 =
                { committed := (reconcileAll initialOutput l).committed ++ [tt],
                  live := clearIfOwned (reconcileAll initialOutput l).live id,
                  finalized := id :: (reconcileAll initialOutput l).finalized } := by
              simp [reconcile, hid]
            rw [h1] at h ⊢
            simp at h
            have hlive : (reconcileAll initialOutput l).live = some (i, t) ∧ i ≠ id := by
              cases hSl : (reconcileAll initialOutput l).live with
              | none => rw [hSl] at h; simp [clearIfOwned] at h
              | some p =>
                  obtain ⟨lid, lt⟩ := p
                  rw [hSl] at h
                  by_cases heq : lid = id
                  · simp [clearIfOwned, heq] at h
                  · simp [clearIfOwned, heq] at h
                    obtain ⟨rfl, rfl⟩ := h
                    exact ⟨rfl, heq⟩
            have hrec := ih i t hlive.1
            simp [mostRecentUnfinalizedPartial, List.findSome?_cons, livePartialOf] at hrec ⊢
            exact findSome?_livePartial_extend l.reverse
              (reconcileAll initialOutput l).finalized id i t hlive.2 hrec
      | TransportError =>
          have h1 : (reconcile (reconcileAll initialOutput l) .TransportError).1 =
              { reconcileAll initialOutput l with live := none } := by simp [reconcile]
          rw [h1] at h
          simp at h

/-- C5: OutputState holds at most one live line (an `Option`); whenever a
live line is present after processing a prefix, it is exactly the most
recently received Partial whose segment id is unfinalized, and a fresh
Partial for any unfinalized id replaces the live line outright — even
when its id differs from the live segment's id. -/
theorem live_line_is_latest_partial (evs : List TranscriptEvent)
    (i t : String) (s : OutputState) (id tt : String)
    (hlive : (reconcileAll initialOutput evs).live = some (i, t))
    (hid : id ∉ s.finalized) :
    mostRecentUnfinalizedPartial evs
      (reconcileAll initialOutput evs).finalized = some (i, t) ∧
    (reconcile s (.Partial id tt)).1.live = some (id, tt) ∧
    (reconcile s (.Partial id tt)).2 = [.updateLive tt] :=
  ⟨live_eq_most_recent evs i t hlive, by simp [reconcile, hid], by simp [reconcile, hid]⟩

/-- Closed form of `live_line_is_latest_partial`: two Partials with
different ids leave the second one live, and a Partial for a third id
replaces a live line belonging to another segment. -/
theorem live_line_is_latest_partial_witness :
    (reconcileAll initialOutput
        [.Partial "a" "x", .Partial "b" "y"]).live = some ("b", "y") ∧
    ("c" ∉ ({ committed := [], live := some ("q", "w"), finalized := [] }
        : OutputState).finalized) ∧
    (mostRecentUnfinalizedPartial [.Partial "a" "x", .Partial "b" "y"]
        (reconcileAll initialOutput
          [.Partial "a" "x", .Partial "b" "y"]).finalized = some ("b", "y") ∧
      (reconcile { committed := [], live := some ("q", "w"), finalized := [] }
          (.Partial "c" "z")).1.live = some ("c", "z") ∧
      (reconcile { committed := [], live := some ("q", "w"), finalized := [] }
          (.Partial "c" "z")).2 = [.updateLive "z"]) :=
  ⟨by decide, by decide,
    live_line_is_latest_partial [.Partial "a" "x", .Partial "b" "y"] "b" "y"
      { committed := [], live := some ("q", "w"), finalized := [] } "c" "z"
      (by decide) (by decide)⟩

/-- C6: once a Final has been recorded for a segment id, a later Partial
or Final carrying that id is rejected — the step returns the state
unchanged (committed transcript and live line untouched) and emits only
a protocol-violation log entry. -/
theorem finalized_segment_rejects_events (s : OutputState) (id t t' : String)
    (hid : id ∈ s.finalized) :
    reconcile s (.Partial id t) = (s, [.logViolation id]) ∧
    reconcile s (.Final id t') = (s, [.logViolation id]) := by
  constructor <;> simp [reconcile, hid]

/-- Closed form of `finalized_segment_rejects_events` at a state where
id `"a"` is already finalized. -/
theorem finalized_segment_rejects_events_witness :
    ("a" ∈ ({ committed := ["x"], live := some ("b", "y"), finalized := ["a"] }
        : OutputState).finalized) ∧
    (reconcile { committed := ["x"], live := some ("b", "y"), finalized := ["a"] }
        (.Partial "a" "late") =
      ({ committed := ["x"], live := some ("b", "y"), finalized := ["a"] },
        [.logViolation "a"]) ∧
    reconcile { committed := ["x"], live := some ("b", "y"), finalized := ["a"] }
        (.Final "a" "dup") =
      ({ committed := ["x"], live := some ("b", "y"), finalized := ["a"] },
        [.logViolation "a"])) :=
  ⟨by decide,
    finalized_segment_rejects_events
      { committed := ["x"], live := some ("b", "y"), finalized := ["a"] }
      "a" "late" "dup" (by decide)⟩

/-- C7: a session-level transport error arriving while a segment has an
uncommitted Partial leaves the committed transcript exactly as it was
(no rollback, no promotion of the live line), clears the live line, and
reports exactly one error to the sink. -/
theorem transport_error_preserves_committed (s : OutputState)
    (i pt : String) (hlive : s.live = some (i, pt)) :
    (reconcile s .TransportError).1.committed = s.committed ∧
    (reconcile s .TransportError).1.live = none ∧
    (reconcile s .TransportError).2 = [.reportError] := by
  simp [reconcile]

/-- Closed form of `transport_error_preserves_committed` at the spec's
scenario: committed `["hello"]`, uncommitted Partial `"tes"` for id
`"c"`. -/
theorem transport_error_preserves_committed_witness :
    (({ committed := ["hello"], live := some ("c", "tes"), finalized := ["a"] }
        : OutputState).live = some ("c", "tes")) ∧
    ((reconcile { committed := ["hello"], live := some ("c", "tes"), finalized := ["a"] }
        .TransportError).1.committed = ["hello"] ∧
    (reconcile { committed := ["hello"], live := some ("c", "tes"), finalized := ["a"] }
        .TransportError).1.live = none ∧
    (reconcile { committed := ["hello"], live := some ("c", "tes"), finalized := ["a"] }
        .TransportError).2 = [.reportError]) :=
  ⟨by decide,
    transport_error_preserves_committed
      { committed := ["hello"], live := some ("c", "tes"), finalized := ["a"] }
      "c" "tes" (by decide)⟩

end Transcribble

namespace AppStore

/-! ## Zustand store (ui/src/stores/appStore.ts)

Embedded from the source: the `downloadModel` and `loadModels` actions of
the store, with the Tauri `invoke` results passed in explicitly as
`Except` values. -/

/-- One entry of the model list returned by `get_available_models`. -/
structure ModelInfo where
  name : String
  filename : String
  size_mb : Nat
  description : String
  english_only : Bool
  downloaded : Bool
  active : Bool
deriving Repr, DecidableEq

/-- The slice of the store state the model actions touch. -/
structure AppState where
  downloadingModel : Option String
  downloadProgress : Nat
  models : List ModelInfo
  activeModel : Option String
deriving Repr, DecidableEq

/-- JS `models.find((m) => m.active)?.name || null`: the name of the
first active model, with an empty name collapsing to null under `||`. -/
def findActiveName (models : List ModelInfo) : Option String :=
  match models.find? (fun m => m.active) with
  | none => none
  | some m => if m.name = "" then none else some m.name

/-- `loadModels`: on success replaces the model list and the active-model
name; its own catch swallows a failed `get_available_models`, leaving the
state unchanged. -/
def loadModels (s : AppState) (result : Except String (List ModelInfo)) :
    AppState :=
  match result with
  | .ok models => { s with models := models, activeModel := findActiveName models }
  | .error _ => s

/-- `downloadModel`: marks the model as downloading, awaits the
`download_model` command, reloads the model list on success, re-throws
the error on failure, and in the `finally` branch always resets
`downloadingModel` to null and `downloadProgress` to 0.  Returns the
settled state together with the settled promise outcome. -/
def downloadModel (s : AppState) (name : String)
    (invokeResult : Except String Unit)
    (modelsResult : Except String (List ModelInfo)) :
    AppState × Except String Unit :=
  let s1 := { s with downloadingModel := some name, downloadProgress := 0 }
  match invokeResult with
  | .error e =>
      ({ s1 with downloadingModel := none, downloadProgress := 0 }, .error e)
  | .ok _ =>
      let s2 := loadModels s1 modelsResult
      ({ s2 with downloadingModel := none, downloadProgress := 0 }, .ok ())

/-- C8: whatever the `download_model` command and the follow-up model
reload do, the settled state of `downloadModel` has `downloadingModel`
null and `downloadProgress` 0 (the finally branch always restores them),
and on rejection the same error is re-thrown to the caller after this
restoration. -/
theorem downloadModel_finally_resets (s : AppState) (name : String)
    (ir : Except String Unit) (mr : Except String (List ModelInfo)) :
    (downloadModel s name ir mr).1.downloadingModel = none ∧
    (downloadModel s name ir mr).1.downloadProgress = 0 ∧
    (∀ e, ir = .error e → (downloadModel s name ir mr).2 = .error e) := by
  cases ir with
  | ok u => exact ⟨rfl, rfl, by intro e h; cases h⟩
  | error e => exact ⟨rfl, rfl, by intro e' h; cases h; rfl⟩

/-- Closed form of `downloadModel_finally_resets` on a rejected download
from a state mid-progress. -/
theorem downloadModel_finally_resets_witness :
    (downloadModel
        { downloadingModel := some "tiny.en", downloadProgress := 42,
          models := [], activeModel := none }
        "base.en" (.error "network down") (.ok [])).1.downloadingModel = none ∧
    (downloadModel
        { downloadingModel := some "tiny.en", downloadProgress := 42,
          models := [], activeModel := none }
        "base.en" (.error "network down") (.ok [])).1.downloadProgress = 0 ∧
    (∀ e, (Except.error "network down" : Except String Unit) = .error e →
      (downloadModel
        { downloadingModel := some "tiny.en", downloadProgress := 42,
          models := [], activeModel := none }
        "base.en" (.error "network down") (.ok [])).2 = .error e) :=
  downloadModel_finally_resets
    { downloadingModel := some "tiny.en", downloadProgress := 42,
      models := [], activeModel := none }
    "base.en" (.error "network down") (.ok [])

end AppStore

namespace SettingsPage

/-! ## Hotkey recorder (ui/src/pages/SettingsPage.tsx)

Embedded from the source: `handleHotkeyRecord` installs a one-shot
keydown listener; the listener maps the pressed key to the hotkey format
and uninstalls itself on the first supported key. -/

/-- The fields of a DOM keydown event the handler reads. -/
structure KeyEvent where
  key : String
  location : Nat
deriving Repr, DecidableEq

/-- The key-mapping branch of `handleKeyDown`: Alt/Control/Shift map to
their Right variant exactly when `location` is 2 and the Left variant
otherwise; a key starting with `F` of length at most 3 maps to itself;
everything else is unsupported. -/
def mapHotkeyName (key : String) (location : Nat) : Option String :=
  if key = "Alt" then some (if location = 2 then "RightAlt" else "LeftAlt")
  else if key = "Control" then
    some (if location = 2 then "RightControl" else "LeftControl")
  else if key = "Shift" then
    some (if location = 2 then "RightShift" else "LeftShift")
  else if key.startsWith "F" ∧ key.length ≤ 3 then some key
  else none

/-- The component state the recorder touches. -/
structure RecorderState where
  hotkey : String
  hasChanges : Bool
  isRecordingHotkey : Bool
  listenerActive : Bool
deriving Repr, DecidableEq

/-- `handleHotkeyRecord`: arm the recorder and install the listener. -/
def handleHotkeyRecord (s : RecorderState) : RecorderState :=
  { s with isRecordingHotkey := true, listenerActive := true }

/-- `handleKeyDown`: while the listener is installed, an unsupported key
returns with no state change; a supported key stores the mapped hotkey,
marks unsaved changes, stops recording, and removes the listener. -/
def handleKeyDown (s : RecorderState) (e : KeyEvent) : RecorderState :=
  if s.listenerActive then
    match mapHotkeyName e.key e.location with
    | some k =>
        { hotkey := k, hasChanges := true,
          isRecordingHotkey := false, listenerActive := false }
    | none => s
  else s

/-- Deliver a sequence of keydown events to the recorder. -/
def runKeyEvents (s : RecorderState) (evs : List KeyEvent) : RecorderState :=
  evs.foldl handleKeyDown s

theorem mapHotkeyName_isSome (key : String) (loc : Nat) :
    (mapHotkeyName key loc).isSome = true ↔
      key = "Alt" ∨ key = "Control" ∨ key = "Shift" ∨
        (key.startsWith "F" = true ∧ key.length ≤ 3) := by
  unfold mapHotkeyName
  split_ifs with h1 h2 h3 h4 <;> simp_all

theorem runKeyEvents_inactive (evs : List KeyEvent) :
    ∀ s : RecorderState, s.listenerActive = false → runKeyEvents s evs = s := by
  induction evs with
  | nil => intro s _; rfl
  | cons e rest ih =>
      intro s hs
      have h1 : handleKeyDown s e = s := by simp [handleKeyDown, hs]
      calc runKeyEvents s (e :: rest) = runKeyEvents (handleKeyDown s e) rest := rfl
        _ = s := by rw [h1]; exact ih s hs

/-- C9: while the recorder listens, a keydown is accepted exactly when
its key is Alt, Control, or Shift (Right variant exactly when
`location = 2`, otherwise Left) or starts with `F` with length at most 3;
every other keypress leaves the whole recorder state unchanged; and the
first accepted key sets the hotkey, sets `hasChanges`, stops recording,
and removes the listener, so every later event of the session is a
no-op. -/
theorem hotkeyRecorder_first_supported_key (s : RecorderState) (e : KeyEvent)
    (k key : String) (loc : Nat) (evs : List KeyEvent)
    (hact : s.listenerActive = true)
    (hacc : mapHotkeyName e.key e.location = some k) :
    ((mapHotkeyName key loc).isSome = true ↔
      key = "Alt" ∨ key = "Control" ∨ key = "Shift" ∨
        (key.startsWith "F" = true ∧ key.length ≤ 3)) ∧
    mapHotkeyName "Alt" loc = some (if loc = 2 then "RightAlt" else "LeftAlt") ∧
    mapHotkeyName "Control" loc =
      some (if loc = 2 then "RightControl" else "LeftControl") ∧
    mapHotkeyName "Shift" loc =
      some (if loc = 2 then "RightShift" else "LeftShift") ∧
    (∀ (s' : RecorderState) (e' : KeyEvent),
      mapHotkeyName e'.key e'.location = none → handleKeyDown s' e' = s') ∧
    runKeyEvents s (e :: evs) =
      { hotkey := k, hasChanges := true,
        isRecordingHotkey := false, listenerActive := false } := by
  refine ⟨mapHotkeyName_isSome key loc, ?_, ?_, ?_, ?_, ?_⟩
  · simp [mapHotkeyName]
  · simp [mapHotkeyName]
  · simp [mapHotkeyName]
  · intro s' e' hmap
    simp [handleKeyDown, hmap]
  · have h1 : handleKeyDown s e =
        { hotkey := k, hasChanges := true,
          isRecordingHotkey := false, listenerActive := false } := by
      simp [handleKeyDown, hact, hacc]
    calc runKeyEvents s (e :: evs) = runKeyEvents (handleKeyDown s e) evs := rfl
      _ = _ := by rw [h1]; exact runKeyEvents_inactive evs _ rfl

/-- Closed form of `hotkeyRecorder_first_supported_key`: a freshly armed
recorder receives right Alt (location 2) followed by further keys, and
only the first is captured. -/
theorem hotkeyRecorder_first_supported_key_witness :
    (handleHotkeyRecord
        { hotkey := "", hasChanges := false,
          isRecordingHotkey := false, listenerActive := false }).listenerActive = true ∧
    mapHotkeyName "Alt" 2 = some "RightAlt" ∧
    (((mapHotkeyName "F2" 0).isSome = true ↔
      "F2" = "Alt" ∨ "F2" = "Control" ∨ "F2" = "Shift" ∨
        ((String.startsWith "F2" "F") = true ∧ String.length "F2" ≤ 3)) ∧
    mapHotkeyName "Alt" 0 = some (if (0 : Nat) = 2 then "RightAlt" else "LeftAlt") ∧
    mapHotkeyName "Control" 0 =
      some (if (0 : Nat) = 2 then "RightControl" else "LeftControl") ∧
    mapHotkeyName "Shift" 0 =
      some (if (0 : Nat) = 2 then "RightShift" else "LeftShift") ∧
    (∀ (s' : RecorderState) (e' : KeyEvent),
      mapHotkeyName e'.key e'.location = none → handleKeyDown s' e' = s') ∧
    runKeyEvents
      (handleHotkeyRecord
        { hotkey := "", hasChanges := false,
          isRecordingHotkey := false, listenerActive := false })
      [⟨"Alt", 2⟩, ⟨"F5", 0⟩, ⟨"Shift", 0⟩] =
      { hotkey := "RightAlt", hasChanges := true,
        isRecordingHotkey := false, listenerActive := false }) :=
  ⟨rfl, by decide,
    hotkeyRecorder_first_supported_key
      (handleHotkeyRecord
        { hotkey := "", hasChanges := false,
          isRecordingHotkey := false, listenerActive := false })
      ⟨"Alt", 2⟩ "RightAlt" "F2" 0 [⟨"F5", 0⟩, ⟨"Shift", 0⟩] rfl (by decide)⟩

end SettingsPage

namespace HistoryPage

/-! ## History search (ui/src/pages/HistoryPage.tsx)

Embedded from the source: `handleSearch` routes a whitespace-only query
to the unfiltered `loadHistory()` (default limit 50, offset 0 — the same
call the page makes on mount) and any other query to
`searchHistory(query)` (limit 50). -/

/-- The whitespace set JS `String.prototype.trim` strips: tab through
carriage return, space, NBSP, BOM, and the Unicode space separators. -/
def isJsWhitespace (c : Char) : Bool :=
  c.toNat = 0x09 || c.toNat = 0x0A || c.toNat = 0x0B || c.toNat = 0x0C ||
  c.toNat = 0x0D || c.toNat = 0x20 || c.toNat = 0xA0 || c.toNat = 0x1680 ||
  (0x2000 ≤ c.toNat && c.toNat ≤ 0x200A) ||
  c.toNat = 0x2028 || c.toNat = 0x2029 || c.toNat = 0x202F ||
  c.toNat = 0x205F || c.toNat = 0x3000 || c.toNat = 0xFEFF

/-- Strip leading and trailing JS whitespace from a character list. -/
def trimChars (l : List Char) : List Char :=
  ((l.dropWhile isJsWhitespace).reverse.dropWhile isJsWhitespace).reverse

/-- JS `query.trim()`. -/
def jsTrim (s : String) : String := String.mk (trimChars s.data)

/-- A query that is empty or consists only of whitespace. -/
def isBlank (s : String) : Bool := s.data.all isJsWhitespace

/-- The history operation the page dispatches to the store. -/
inductive HistoryAction where
  | load (limit offset : Nat)
  | search (query : String) (limit : Nat)
deriving Repr, DecidableEq

/-- The unfiltered load the page performs on mount: `loadHistory()`,
whose defaults are limit 50, offset 0. -/
def initialHistoryLoad : HistoryAction := .load 50 0

/-- `handleSearch`: JS string truthiness of `query.trim()` — a nonempty
trimmed query searches, anything else reloads the unfiltered history. -/
def handleSearch (query : String) : HistoryAction :=
  if jsTrim query = "" then .load 50 0 else .search query 50

theorem trimChars_eq_nil_iff (l : List Char) :
    trimChars l = [] ↔ ∀ c ∈ l, isJsWhitespace c = true := by
  unfold trimChars
  rw [List.reverse_eq_nil_iff, List.dropWhile_eq_nil_iff]
  constructor
  · intro h c hc
    have hsplit := List.takeWhile_append_dropWhile (p := isJsWhitespace) (l := l)
    rw [← hsplit] at hc
    rcases List.mem_append.mp hc with h1 | h2
    · exact List.mem_takeWhile_imp h1
    · exact h c (List.mem_reverse.mpr h2)
  · intro h c hc
    exact h c ((List.dropWhile_sublist isJsWhitespace).subset (List.mem_reverse.mp hc))

theorem jsTrim_eq_empty_iff (s : String) : jsTrim s = "" ↔ isBlank s = true := by
  unfold jsTrim isBlank
  rw [show ("" : String) = String.mk [] from rfl]
  constructor
  · intro h
    have : trimChars s.data = [] := by
      have := congrArg String.data h
      simpa using this
    rw [trimChars_eq_nil_iff] at this
    simpa [List.all_eq_true] using this
  · intro h
    have : ∀ c ∈ s.data, isJsWhitespace c = true := by
      simpa [List.all_eq_true] using h
    rw [← trimChars_eq_nil_iff] at this
    rw [this]

/-- C10: a query that is empty or whitespace-only dispatches the
unfiltered history load — the very same operation as the page's initial
load, so clearing the search box restores the unfiltered list — while
any other query dispatches the search operation with that query. -/
theorem handleSearch_blank_reloads (q nq : String)
    (hq : isBlank q = true) (hnq : isBlank nq = false) :
    handleSearch q = .load 50 0 ∧
    handleSearch q = initialHistoryLoad ∧
    handleSearch nq = .search nq 50 := by
  have hq' : jsTrim q = "" := (jsTrim_eq_empty_iff q).mpr hq
  have hnq' : ¬(jsTrim nq = "") := by
    intro hcon
    rw [jsTrim_eq_empty_iff nq] at hcon
    rw [hcon] at hnq
    cases hnq
  exact ⟨by simp [handleSearch, hq'], by simp [handleSearch, hq', initialHistoryLoad],
    by simp [handleSearch, hnq']⟩

/-- Closed form of `handleSearch_blank_reloads` at a tab-and-spaces query
and the query `"hello"`. -/
theorem handleSearch_blank_reloads_witness :
    isBlank "\t  " = true ∧ isBlank " hello " = false ∧
    (handleSearch "\t  " = .load 50 0 ∧
      handleSearch "\t  " = initialHistoryLoad ∧
      handleSearch " hello " = .search " hello " 50) :=
  ⟨by decide, by decide,
    handleSearch_blank_reloads "\t  " " hello " (by decide) (by decide)⟩

end HistoryPage
